import Mathlib

/-!
Verification development for two Python utility scripts:

* Script A, `fix_node_definitions.py`: `fix_node_definition_file` reads a
  text file and applies eight ordered rewrites (regex substitutions and two
  bracket-matching rewrites), writing the file back only when the text
  changed.
* Script B, `b64_json-2-image.py`: `base64_json_to_image` parses a JSON
  document, extracts a Base64 payload, strips an optional data-URI prefix,
  decodes it and writes the bytes to a file, returning a success Boolean.

Texts are embedded as `List Char`.  Python regular expressions used by the
scripts are all of a deterministic shape (literals, greedy character-class
runs followed by a literal that the class excludes, one lazy run with a
lookahead); each is embedded as an explicit matcher function returning the
match length and replacement, and `re.sub` is embedded as the left-to-right
non-overlapping substitution engine `substAll`.
-/

/-- Texts are lists of characters. -/
abbrev Chars := List Char

/-- Python `str.strip()` / `\s` whitespace set: space, tab, newline,
carriage return, vertical tab, form feed. -/
def isPyWs (c : Char) : Bool :=
  c = ' ' || c = '\t' || c = '\n' || c = '\r' || c = '\x0b' || c = '\x0c'

/-- Python `str.strip()`: drop leading and trailing whitespace. -/
def pyStrip (l : Chars) : Chars :=
  ((l.dropWhile isPyWs).reverse.dropWhile isPyWs).reverse

/-- Square-bracket contribution of one character (for depth counting). -/
def charBr (c : Char) : Int :=
  if c = '[' then 1 else if c = ']' then -1 else 0

/-- Parenthesis contribution of one character (for depth counting). -/
def charPn (c : Char) : Int :=
  if c = '(' then 1 else if c = ')' then -1 else 0

/-- Net square-bracket depth change over a list of characters. -/
def brDelta : Chars → Int
  | [] => 0
  | c :: cs => charBr c + brDelta cs

/-- Net parenthesis depth change over a list of characters. -/
def pnDelta : Chars → Int
  | [] => 0
  | c :: cs => charPn c + pnDelta cs

/-!
## The substitution engine

`substAux m k l` copies `l`, except that when `k = 0` and the matcher `m`
reports a match of length `n` with replacement `rep` on the current suffix,
it emits `rep` and skips the `n` matched characters (the current one plus
`n - 1` more, tracked by the skip counter).  `substAll m l = substAux m 0 l`
is exactly Python's `re.sub`: leftmost, non-overlapping, left to right.
-/

/-- One-pass substitution with a pending-skip counter (see module note). -/
def substAux (m : Chars → Option (Nat × Chars)) : Nat → Chars → Chars
  | _, [] => []
  | k + 1, _ :: cs => substAux m k cs
  | 0, c :: cs =>
    match m (c :: cs) with
    | some (n, rep) => rep ++ substAux m (n - 1) cs
    | none => c :: substAux m 0 cs

/-- Embedding of `re.sub(pattern, repl, text)` for matcher `m`. -/
def substAll (m : Chars → Option (Nat × Chars)) (l : Chars) : Chars :=
  substAux m 0 l

/-- `noMatches m l = true` iff the matcher `m` matches at no position of
`l` (i.e. the text contains zero occurrences of the pattern). -/
def noMatches (m : Chars → Option (Nat × Chars)) : Chars → Bool
  | [] => true
  | c :: cs => (m (c :: cs)).isNone && noMatches m cs

/-- Positions of all non-overlapping leftmost occurrences of a pattern,
continuing after each match: embedding of `re.finditer` on a literal
pattern.  The skip counter plays the same role as in `substAux`. -/
def findOccAux (pat : Chars) : Nat → Chars → Nat → List Nat
  | k + 1, _ :: cs, i => findOccAux pat k cs (i + 1)
  | _, [], _ => []
  | 0, c :: cs, i =>
    if pat.isPrefixOf (c :: cs) then
      i :: findOccAux pat (pat.length - 1) cs (i + 1)
    else
      findOccAux pat 0 cs (i + 1)

/-- All match positions of literal pattern `pat` in `l`. -/
def findOcc (pat : Chars) (l : Chars) : List Nat :=
  findOccAux pat 0 l 0

/-!
## Script A, rule 1: `re.sub(r'\.version\(([^)]+)\)', r'', content)`

Greedy `[^)]+` takes the maximal run of non-`)` characters; the following
literal `\)` then has to match, and shorter runs cannot succeed because
they end at a non-`)` character.  So the regex matches at a position iff
the literal `.version(` is a prefix, the next character is not `)`, and a
`)` follows the run. -/

def versionPat : Chars := ".version(".data

/-- Matcher for rule 1; the replacement is empty (the call is removed). -/
def matchVersion (s : Chars) : Option (Nat × Chars) :=
  if versionPat.isPrefixOf s then
    let rest := s.drop versionPat.length
    let grp := rest.takeWhile (fun c => c ≠ ')')
    if grp.length = 0 then none
    else if (rest.drop grp.length).take 1 = [')'] then
      some (versionPat.length + grp.length + 1, [])
    else none
  else none

/-- Rule 1 of `fix_node_definition_file`. -/
def step1 (c : Chars) : Chars := substAll matchVersion c

/-!
## Script A, rules 2 and 3:
`re.sub(r'\.inputs\(\[([^\]]+)\]\)', lambda m: f'.add_input({m.group(1).strip()})', content)`
and the same for `.outputs(...)` / `.add_output`.  As in rule 1 the greedy
class run is deterministic. -/

def inputsPat : Chars := ".inputs([".data

def outputsPat : Chars := ".outputs([".data

/-- Matcher for rule 2. -/
def matchInputs (s : Chars) : Option (Nat × Chars) :=
  if inputsPat.isPrefixOf s then
    let rest := s.drop inputsPat.length
    let grp := rest.takeWhile (fun c => c ≠ ']')
    if grp.length = 0 then none
    else if (rest.drop grp.length).take 2 = [']', ')'] then
      some (inputsPat.length + grp.length + 2, ".add_input(".data ++ pyStrip grp ++ [')'])
    else none
  else none

/-- Matcher for rule 3. -/
def matchOutputs (s : Chars) : Option (Nat × Chars) :=
  if outputsPat.isPrefixOf s then
    let rest := s.drop outputsPat.length
    let grp := rest.takeWhile (fun c => c ≠ ']')
    if grp.length = 0 then none
    else if (rest.drop grp.length).take 2 = [']', ')'] then
      some (outputsPat.length + grp.length + 2, ".add_output(".data ++ pyStrip grp ++ [')'])
    else none
  else none

/-- Rule 2 of `fix_node_definition_file`. -/
def step2 (c : Chars) : Chars := substAll matchInputs c

/-- Rule 3 of `fix_node_definition_file`. -/
def step3 (c : Chars) : Chars := substAll matchOutputs c

/-!
## Script A, rule 7:
`re.sub(r'let\s+definition\s*=\s*base\?\s*;', 'let definition = base;', content)`
Each `\s+`/`\s*` is a greedy whitespace run followed by a literal whose
first character is not whitespace, so the match is deterministic. -/

/-- Matcher for rule 7. -/
def matchBaseQ (s : Chars) : Option (Nat × Chars) :=
  if "let".data.isPrefixOf s then
    let r1 := s.drop 3
    let w1 := r1.takeWhile isPyWs
    if w1.length = 0 then none
    else
      let r2 := r1.drop w1.length
      if "definition".data.isPrefixOf r2 then
        let r3 := r2.drop 10
        let w2 := r3.takeWhile isPyWs
        let r4 := r3.drop w2.length
        if "=".data.isPrefixOf r4 then
          let r5 := r4.drop 1
          let w3 := r5.takeWhile isPyWs
          let r6 := r5.drop w3.length
          if "base?".data.isPrefixOf r6 then
            let r7 := r6.drop 5
            let w4 := r7.takeWhile isPyWs
            let r8 := r7.drop w4.length
            if ";".data.isPrefixOf r8 then
              some (3 + w1.length + 10 + w2.length + 1 + w3.length + 5 + w4.length + 1,
                    "let definition = base;".data)
            else none
          else none
        else none
      else none
  else none

/-- Rule 7 of `fix_node_definition_file`. -/
def step7 (c : Chars) : Chars := substAll matchBaseQ c

/-!
## Script A, rule 5:
`re.sub(r'NodePropertyKindOptions::builder\(\)([^.]*?)(?=\s*[,)])', lambda m: f'NodePropertyKindOptions::builder(){m.group(1)}.build()', content, flags=re.DOTALL)`

The lazy run `[^.]*?` takes the SMALLEST number `k` of non-dot characters
after which the lookahead `(?=\s*[,)])` holds; the lookahead holds iff the
first non-whitespace character from that point exists and is `,` or `)`.
(`re.DOTALL` only affects the `.` metacharacter, which does not occur.)
The matched text (lookahead excluded) is replaced by itself followed by
`.build()`. -/

def kindOptionsPat : Chars := "NodePropertyKindOptions::builder()".data

/-- The lookahead `(?=\s*[,)])`: first non-whitespace character is `,` or `)`. -/
def lookaheadOk (rest : Chars) : Bool :=
  match rest.dropWhile isPyWs with
  | c :: _ => c = ',' || c = ')'
  | [] => false

/-- Smallest `k` such that the first `k` characters are non-dot and the
lookahead holds after them (the lazy `[^.]*?`). -/
def findLazyK : Chars → Option Nat
  | [] => none
  | c :: cs =>
    if lookaheadOk (c :: cs) then some 0
    else if c = '.' then none
    else (findLazyK cs).map (· + 1)

/-- Matcher for rule 5. -/
def matchKindOptions (s : Chars) : Option (Nat × Chars) :=
  if kindOptionsPat.isPrefixOf s then
    match findLazyK (s.drop kindOptionsPat.length) with
    | some k =>
      some (kindOptionsPat.length + k,
            kindOptionsPat ++ (s.drop kindOptionsPat.length).take k ++ ".build()".data)
    | none => none
  else none

/-- Rule 5 of `fix_node_definition_file`. -/
def step5 (c : Chars) : Chars := substAll matchKindOptions c

/-!
## Script A, rule 6 (`NodeProperty::builder()` chains)

The script collects all occurrences of the literal
`NodeProperty::builder()` via `re.finditer` and, working from the last
match backwards, scans forward from the end of the occurrence tracking
parenthesis depth; it stops at the first `,`, `;`, `}` or `]` at depth 0
(or at end of text).  If the scanned chain does not contain `.build()`,
that call is inserted at the stop position. -/

def nodePropBuilderPat : Chars := "NodeProperty::builder()".data

/-- Stop characters of the rule-6 scan (`','`, `';'`, `'}'`, `']'`). -/
def stopChar (c : Char) : Prop :=
  c = ',' ∨ c = ';' ∨ c = '\x7d' ∨ c = ']'

instance (c : Char) : Decidable (stopChar c) := by
  unfold stopChar; infer_instance

/-- The rule-6 while loop: number of characters scanned before the stop
(`','`/`';'`/`'}'`/`']'` at parenthesis depth 0, or end of text), given the
current depth.  The loop's `'.'` branch is a no-op, like any other
non-special character. -/
def scanChain : Chars → Int → Nat
  | [], _ => 0
  | c :: cs, d =>
    if c = '(' then 1 + scanChain cs (d + 1)
    else if c = ')' then 1 + scanChain cs (d - 1)
    else if stopChar c ∧ d = 0 then 0
    else 1 + scanChain cs d

/-- Python's `pat in s` substring test. -/
def hasSub (pat : Chars) : Chars → Bool
  | [] => pat.isEmpty
  | c :: cs => pat.isPrefixOf (c :: cs) || hasSub pat cs

def buildDotPat : Chars := ".build()".data

/-- Processing of one rule-6 occurrence starting at index `idx`:
`start_pos = match.end()`, scan to the chain end, and insert `.build()`
there unless the chain already contains it. -/
def processBuilder (content : Chars) (idx : Nat) : Chars :=
  let start := idx + nodePropBuilderPat.length
  let off := scanChain (content.drop start) 0
  let chain := (content.drop start).take off
  if hasSub buildDotPat chain then content
  else content.take (start + off) ++ buildDotPat ++ content.drop (start + off)

/-- Rule 6 of `fix_node_definition_file`: all occurrences, processed in
reverse order (as in the script, so earlier positions stay valid). -/
def step6 (content : Chars) : Chars :=
  (findOcc nodePropBuilderPat content).reverse.foldl processBuilder content

/-!
## Script A, rule 4 (`.properties([...])`)

The script finds all occurrences of the literal `.properties([` via
`re.finditer`, and for each occurrence (processed in reverse order):

* scans forward from the `[` counting `[`/`]` to find the matching `]`
  (`end_pos` is two past it, intended to cover the closing `])`); if no
  matching bracket is found the occurrence is skipped;
* splits the bracketed content at commas that are at square-bracket depth 0
  AND parenthesis depth 0, stripping each item (the loop walks the slice
  `content[match.end()-1 : end_pos-1]` at indices `1 .. len-2`, i.e. the
  characters strictly between the outer `[` and `]`);
* emits `.add_property(<item>)` for each nonempty stripped item and
  replaces the whole `.properties([...])` occurrence with that chain. -/

def propertiesPat : Chars := ".properties([".data

/-- The matching-bracket search of rule 4: index of the `]` that brings
the running `[`/`]` count back to zero, scanning from the position of the
opening `[` with count 0 (the opening `[` itself is the first character
processed). -/
def findCloseAux : Chars → Int → Nat → Option Nat
  | [], _, _ => none
  | c :: cs, bc, i =>
    if c = '[' then findCloseAux cs (bc + 1) (i + 1)
    else if c = ']' then
      if bc - 1 = 0 then some i
      else findCloseAux cs (bc - 1) (i + 1)
    else findCloseAux cs bc (i + 1)

/-- State of the rule-4 splitting loop: the two depth counters, the item
being accumulated, and the finished items. -/
structure SplitSt where
  bracket : Int
  paren : Int
  current : Chars
  items : List Chars
deriving Repr

/-- One iteration of the rule-4 splitting loop on character `c`.  The
character is first appended to the current item; brackets and parentheses
adjust their counters; a comma with both counters at zero closes the
current item (appending `current_item[:-1].strip()`, i.e. the item without
the comma, stripped). -/
def stepSplit (st : SplitSt) (c : Char) : SplitSt :=
  let cur := st.current ++ [c]
  if c = '[' then ⟨st.bracket + 1, st.paren, cur, st.items⟩
  else if c = ']' then ⟨st.bracket - 1, st.paren, cur, st.items⟩
  else if c = '(' then ⟨st.bracket, st.paren + 1, cur, st.items⟩
  else if c = ')' then ⟨st.bracket, st.paren - 1, cur, st.items⟩
  else if c = ',' ∧ st.bracket = 0 ∧ st.paren = 0 then
    ⟨st.bracket, st.paren, [], st.items ++ [pyStrip st.current]⟩
  else ⟨st.bracket, st.paren, cur, st.items⟩

/-- Rule-4 splitting of `properties_content` (which includes the outer
`[` and `]`; the loop covers indices `1 .. len-2`, i.e. the inner
characters).  After the loop the pending item is appended if its stripped
form is nonempty. -/
def splitItems (pc : Chars) : List Chars :=
  let inner := (pc.drop 1).take (pc.length - 2)
  let fin := inner.foldl stepSplit ⟨0, 0, [], []⟩
  if (pyStrip fin.current).isEmpty then fin.items else fin.items ++ [pyStrip fin.current]

/-- Processing of one rule-4 occurrence starting at index `idx`
(`match.end() = idx + 13`; the scan starts at the `[`, index `idx + 12`). -/
def processProps (content : Chars) (idx : Nat) : Chars :=
  match findCloseAux (content.drop (idx + propertiesPat.length - 1)) 0 0 with
  | none => content
  | some off =>
    let endPos := idx + propertiesPat.length - 1 + off + 2
    let propsContent := (content.drop (idx + propertiesPat.length - 1)).take (off + 1)
    let items := splitItems propsContent
    let newCalls := items.foldl
      (fun acc it =>
        if (pyStrip it).isEmpty then acc
        else acc ++ ".add_property(".data ++ pyStrip it ++ [')'])
      []
    content.take idx ++ newCalls ++ content.drop endPos

/-- Rule 4 of `fix_node_definition_file`: all occurrences of
`.properties([`, processed in reverse order. -/
def step4 (content : Chars) : Chars :=
  (findOcc propertiesPat content).reverse.foldl processProps content

/-!
## Script A, rule 8:
`NodeDefinition::new\(\s*"([^"]+)"\s*,\s*"([^"]+)"\s*\)` found with
`re.finditer` and each match replaced (in reverse order) by
`NodeDefinition::new("<g1>", "<g2>", Version::new(1, 0, 0))`.
Replacing each of a list of non-overlapping leftmost matches — in reverse
order by slicing, as the script does — produces the same text as the
left-to-right substitution engine, so rule 8 is embedded with `substAll`.
As before every greedy run is followed by a literal its class excludes, so
the regex is deterministic. -/

def nodeDefNewPat : Chars := "NodeDefinition::new(".data

/-- Matcher for rule 8. -/
def matchNodeDefNew (s : Chars) : Option (Nat × Chars) :=
  if nodeDefNewPat.isPrefixOf s then
    let r1 := s.drop nodeDefNewPat.length
    let w1 := r1.takeWhile isPyWs
    let r2 := r1.drop w1.length
    if r2.take 1 = ['"'] then
      let r3 := r2.drop 1
      let g1 := r3.takeWhile (fun c => c ≠ '"')
      if g1.length = 0 then none
      else if (r3.drop g1.length).take 1 = ['"'] then
        let r4 := r3.drop (g1.length + 1)
        let w2 := r4.takeWhile isPyWs
        if (r4.drop w2.length).take 1 = [','] then
          let r5 := r4.drop (w2.length + 1)
          let w3 := r5.takeWhile isPyWs
          if (r5.drop w3.length).take 1 = ['"'] then
            let r6 := r5.drop (w3.length + 1)
            let g2 := r6.takeWhile (fun c => c ≠ '"')
            if g2.length = 0 then none
            else if (r6.drop g2.length).take 1 = ['"'] then
              let r7 := r6.drop (g2.length + 1)
              let w4 := r7.takeWhile isPyWs
              if (r7.drop w4.length).take 1 = [')'] then
                some (nodeDefNewPat.length + w1.length + g1.length + w2.length
                        + w3.length + g2.length + w4.length + 6,
                      "NodeDefinition::new(\"".data ++ g1 ++ "\", \"".data ++ g2
                        ++ "\", Version::new(1, 0, 0))".data)
              else none
            else none
          else none
        else none
      else none
    else none
  else none

/-- Rule 8 of `fix_node_definition_file`. -/
def step8 (c : Chars) : Chars := substAll matchNodeDefNew c

/-- The full transformation of `fix_node_definition_file`: the eight
rewrites applied in order. -/
def fixContent (c : Chars) : Chars :=
  step8 (step7 (step6 (step5 (step4 (step3 (step2 (step1 c)))))))

/-- `fix_node_definition_file` as a function from the file's text to the
pair (text written back, if any; returned Boolean).  The script writes the
transformed text only when it differs from the original, returning `True`
in that case and `False` otherwise. -/
def fix_node_definition_file (content : Chars) : Option Chars × Bool :=
  let c' := fixContent content
  if c' ≠ content then (some c', true) else (none, false)

/-!
## Script B: `base64_json_to_image`

The procedure parses the input as JSON (`json.loads`), looks up
`data[data_key]`, strips an optional leading `data:image/<word>+;base64,`
prefix (`re.sub` anchored at `^`, so at most one occurrence), Base64-decodes
the value (`base64.b64decode`, `validate=False`), and writes the bytes to
the output path.  Each `except` clause maps one failure class to one
printed diagnostic and the function returns `False`; on success it returns
`True`.  The standard-library behaviours (`json.loads`, `base64.b64decode`)
are modelled directly below (JSON per the grammar `json.loads` implements,
including its number-token regex and the `NaN`/`Infinity`/`-Infinity`
constants, numbers kept as raw tokens since their value is never used;
`b64decode` per CPython's non-strict `binascii.a2b_base64`: non-alphabet
characters are discarded, a pad sequence completing a quad of position ≥ 2
ends decoding, and leftover quad characters at the end are an error).
-/

/-- JSON values as produced by `json.loads` (numbers kept as raw tokens;
their numeric value is never consumed by the script). -/
inductive JValue where
  | jnull
  | jbool (b : Bool)
  | jnum (raw : Chars)
  | jstr (s : Chars)
  | jarr (xs : List JValue)
  | jobj (kvs : List (Chars × JValue))

/-- JSON whitespace accepted between tokens by `json.loads`. -/
def isJsonWs (c : Char) : Bool :=
  c = ' ' || c = '\t' || c = '\n' || c = '\r'

/-- Skip JSON whitespace. -/
def skipWs : Chars → Chars
  | [] => []
  | c :: cs => if isJsonWs c then skipWs cs else c :: cs

/-- Single-character string escapes of JSON. -/
def escChar (c : Char) : Option Char :=
  if c = '"' then some '"'
  else if c = '\\' then some '\\'
  else if c = '/' then some '/'
  else if c = 'b' then some '\x08'
  else if c = 'f' then some '\x0c'
  else if c = 'n' then some '\n'
  else if c = 'r' then some '\r'
  else if c = 't' then some '\t'
  else none

/-- Value of a hexadecimal digit. -/
def hexVal (c : Char) : Option Nat :=
  if '0' ≤ c ∧ c ≤ '9' then some (c.toNat - '0'.toNat)
  else if 'a' ≤ c ∧ c ≤ 'f' then some (c.toNat - 'a'.toNat + 10)
  else if 'A' ≤ c ∧ c ≤ 'F' then some (c.toNat - 'A'.toNat + 10)
  else none

/-- Body of a JSON string after the opening quote: returns the decoded
string and the remaining input after the closing quote.  Control
characters are rejected (strict `json.loads` behaviour). -/
def parseStringBody : Chars → Option (Chars × Chars)
  | [] => none
  | c :: cs =>
    if c = '"' then some ([], cs)
    else if c = '\\' then
      match cs with
      | [] => none
      | e :: cs2 =>
        if e = 'u' then
          match cs2 with
          | h1 :: h2 :: h3 :: h4 :: cs3 =>
            match hexVal h1, hexVal h2, hexVal h3, hexVal h4 with
            | some v1, some v2, some v3, some v4 =>
              (parseStringBody cs3).map
                (fun p => (Char.ofNat (((v1 * 16 + v2) * 16 + v3) * 16 + v4) :: p.1, p.2))
            | _, _, _, _ => none
          | _ => none
        else
          match escChar e with
          | some ec => (parseStringBody cs2).map (fun p => (ec :: p.1, p.2))
          | none => none
    else if c.toNat < 0x20 then none
    else (parseStringBody cs).map (fun p => (c :: p.1, p.2))

/-- The number token of `json.loads`: its scanner matches the regex
`-?(0|[1-9][0-9]*)(\.[0-9]+)?([eE][-+]?[0-9]+)?` at the current position
and takes the (unique maximal) match; the optional fraction and exponent
groups are dropped entirely when incomplete (`1.` and `1e` tokenise as
`1`).  Returns the token and the remaining input, or `none` when the
regex does not match at this position. -/
def scanNumber (l : Chars) : Option (Chars × Chars) :=
  let sgn : Chars := if l.take 1 = ['-'] then ['-'] else []
  let r1 := l.drop sgn.length
  match r1 with
  | [] => none
  | c :: cs =>
    if c.isDigit then
      let intDigits : Chars :=
        if c = '0' then ['0'] else c :: cs.takeWhile Char.isDigit
      let r2 := r1.drop intDigits.length
      let frac : Chars :=
        if r2.take 1 = ['.'] ∧ (r2.drop 1).takeWhile Char.isDigit ≠ [] then
          '.' :: (r2.drop 1).takeWhile Char.isDigit
        else []
      let r3 := r2.drop frac.length
      let expSign : Chars :=
        if (r3.drop 1).take 1 = ['+'] ∨ (r3.drop 1).take 1 = ['-'] then (r3.drop 1).take 1
        else []
      let expDigits := ((r3.drop 1).drop expSign.length).takeWhile Char.isDigit
      let expPart : Chars :=
        if (r3.take 1 = ['e'] ∨ r3.take 1 = ['E']) ∧ expDigits ≠ [] then
          r3.take 1 ++ expSign ++ expDigits
        else []
      let tok := sgn ++ intDigits ++ frac ++ expPart
      some (tok, l.drop tok.length)
    else none

/-- Parser modes: a JSON value, the members of an object (after `{`,
at least one member), or the elements of an array (after `[`, at least
one element).  A single fuel-indexed function keeps the recursion
structural, so that the parser evaluates by kernel reduction. -/
inductive PMode where
  | value
  | members
  | elems

/-- Recursive-descent JSON parser; the fuel strictly decreases at every
recursive call and is chosen large enough by `parseJson`. -/
def parseF : Nat → PMode → Chars → Option (JValue × Chars)
  | 0, _, _ => none
  | f + 1, PMode.value, l =>
    match skipWs l with
    | [] => none
    | c :: cs =>
      if c = '"' then
        (parseStringBody cs).map (fun p => (JValue.jstr p.1, p.2))
      else if c = '\x7b' then
        let r := skipWs cs
        if r.take 1 = ['\x7d'] then some (JValue.jobj [], r.drop 1)
        else parseF f PMode.members r
      else if c = '[' then
        let r := skipWs cs
        if r.take 1 = [']'] then some (JValue.jarr [], r.drop 1)
        else parseF f PMode.elems r
      else if "true".data.isPrefixOf (c :: cs) then
        some (JValue.jbool true, (c :: cs).drop 4)
      else if "false".data.isPrefixOf (c :: cs) then
        some (JValue.jbool false, (c :: cs).drop 5)
      else if "null".data.isPrefixOf (c :: cs) then
        some (JValue.jnull, (c :: cs).drop 4)
      else
        match scanNumber (c :: cs) with
        | some pr => some (JValue.jnum pr.1, pr.2)
        | none =>
          if "NaN".data.isPrefixOf (c :: cs) then
            some (JValue.jnum "NaN".data, (c :: cs).drop 3)
          else if "Infinity".data.isPrefixOf (c :: cs) then
            some (JValue.jnum "Infinity".data, (c :: cs).drop 8)
          else if "-Infinity".data.isPrefixOf (c :: cs) then
            some (JValue.jnum "-Infinity".data, (c :: cs).drop 9)
          else none
  | f + 1, PMode.members, l =>
    match skipWs l with
    | '"' :: cs =>
      match parseStringBody cs with
      | none => none
      | some (key, r1) =>
        match skipWs r1 with
        | ':' :: r2 =>
          match parseF f PMode.value r2 with
          | none => none
          | some (v, r3) =>
            match skipWs r3 with
            | ',' :: r4 =>
              match parseF f PMode.members r4 with
              | some (JValue.jobj kvs, r5) => some (JValue.jobj ((key, v) :: kvs), r5)
              | _ => none
            | '\x7d' :: r4 => some (JValue.jobj [(key, v)], r4)
            | _ => none
        | _ => none
    | _ => none
  | f + 1, PMode.elems, l =>
    match parseF f PMode.value l with
    | none => none
    | some (v, r1) =>
      match skipWs r1 with
      | ',' :: r2 =>
        match parseF f PMode.elems r2 with
        | some (JValue.jarr vs, r3) => some (JValue.jarr (v :: vs), r3)
        | _ => none
      | ']' :: r2 => some (JValue.jarr [v], r2)
      | _ => none

/-- `json.loads`: parse a complete document (only trailing whitespace may
remain).  The fuel `2 * l.length + 2` over-approximates the recursion
depth, which is at most two calls per input character. -/
def parseJson (l : Chars) : Option JValue :=
  match parseF (2 * l.length + 2) PMode.value l with
  | some (v, rest) => if skipWs rest = [] then some v else none
  | none => none

/-- Python `dict` built from pairs, looked up at `k`: later duplicate keys
overwrite earlier ones, so the LAST binding wins. -/
def lookupKey (kvs : List (Chars × JValue)) (k : Chars) : Option JValue :=
  match kvs with
  | [] => none
  | (k', v) :: rest =>
    match lookupKey rest k with
    | some v' => some v'
    | none => if k' = k then some v else none

/-!
### The data-URI prefix strip:
`re.sub(r"^data:image/\w+;base64,", "", base64_string)` — anchored at the
start, so at most one occurrence is removed.  `\w+` is a greedy run of word
characters followed by the literal `;`, which is not a word character, so
the match is deterministic.  (`\w` is modelled as ASCII word characters;
the tokens appearing here are MIME subtype names.) -/

/-- Word characters for `\w` (ASCII model). -/
def isWordChar (c : Char) : Bool :=
  c.isAlpha || c.isDigit || c = '_'

def dataUriLit : Chars := "data:image/".data

/-- Length of the `^data:image/\w+;base64,` match at the start, if any. -/
def matchDataUri (s : Chars) : Option Nat :=
  if dataUriLit.isPrefixOf s then
    let r := s.drop dataUriLit.length
    let w := r.takeWhile isWordChar
    if w.length = 0 then none
    else if ";base64,".data.isPrefixOf (r.drop w.length) then
      some (dataUriLit.length + w.length + 8)
    else none
  else none

/-- The anchored `re.sub` with empty replacement: strip the prefix if
present, else leave the value unchanged. -/
def stripDataUri (s : Chars) : Chars :=
  match matchDataUri s with
  | some n => s.drop n
  | none => s

/-!
### `base64.b64decode` (with `validate=False`) -/

def b64Alphabet : Chars :=
  "ABCDEFGHIJKLMNOPQRSTUVWXYZabcdefghijklmnopqrstuvwxyz0123456789+/".data

/-- Index of a character in a list (used as the Base64 decode table). -/
def idxIn : Chars → Char → Option Nat
  | [], _ => none
  | a :: as, c => if a = c then some 0 else (idxIn as c).map (· + 1)

/-- Bytes recovered from a final partial quad of 2 or 3 sextets. -/
def padBytes : List Nat → List Nat
  | [s0, s1] => [s0 * 4 + s1 / 16]
  | [s0, s1, s2] => [s0 * 4 + s1 / 16, (s1 % 16) * 16 + s2 / 4]
  | _ => []

/-- Core of CPython's non-strict `binascii.a2b_base64`: characters outside
the alphabet are discarded (without resetting the pad counter); a `=` seen
with quad position `≥ 2` and `quad_pos + pads + 1 ≥ 4` ends decoding,
emitting the bytes of the partial quad and ignoring the rest; a valid
character resets the pad counter and extends the quad, emitting three
bytes when the quad completes; leftover quad characters at the end of the
input are an error (`none`). -/
def b64core : Chars → List Nat → Nat → Option (List Nat)
  | [], pending, _ => if pending.length = 0 then some [] else none
  | c :: cs, pending, pads =>
    if c = '=' then
      if pending.length ≥ 2 then
        if pending.length + pads + 1 ≥ 4 then some (padBytes pending)
        else b64core cs pending (pads + 1)
      else b64core cs pending pads
    else
      match idxIn b64Alphabet c with
      | none => b64core cs pending pads
      | some v =>
        match pending with
        | [s0, s1, s2] =>
          (b64core cs [] 0).map
            (fun rest => (s0 * 4 + s1 / 16) :: ((s1 % 16) * 16 + s2 / 4)
              :: ((s2 % 4) * 64 + v) :: rest)
        | _ => b64core cs (pending ++ [v]) 0

/-- Failure classes of `base64.b64decode` on a `str` argument: a non-ASCII
character makes the initial `.encode('ascii')` raise a plain `ValueError`
(NOT a `binascii.Error`); otherwise decoding failures are
`binascii.Error`. -/
inductive DecErr where
  | notAscii
  | badData
deriving DecidableEq

/-- `base64.b64decode` on a string. -/
def b64decodePy (s : Chars) : Except DecErr (List Nat) :=
  if s.all (fun c => c.toNat < 128) then
    match b64core s [] 0 with
    | some bs => Except.ok bs
    | none => Except.error DecErr.badData
  else Except.error DecErr.notAscii

/-- Standard Base64 encoding of a byte list (RFC 4648, with padding), used
to state the round-trip property. -/
def b64encode : List Nat → Chars
  | [] => []
  | [b0] =>
    [b64Alphabet.getD (b0 / 4) 'A', b64Alphabet.getD (b0 % 4 * 16) 'A', '=', '=']
  | [b0, b1] =>
    [b64Alphabet.getD (b0 / 4) 'A', b64Alphabet.getD (b0 % 4 * 16 + b1 / 16) 'A',
     b64Alphabet.getD (b1 % 16 * 4) 'A', '=']
  | b0 :: b1 :: b2 :: rest =>
    b64Alphabet.getD (b0 / 4) 'A' :: b64Alphabet.getD (b0 % 4 * 16 + b1 / 16) 'A'
      :: b64Alphabet.getD (b1 % 16 * 4 + b2 / 64) 'A' :: b64Alphabet.getD (b2 % 64) 'A'
      :: b64encode rest

/-- The diagnostic classes of `base64_json_to_image`: one per `except`
clause (each prints its own specific message). -/
inductive Diag where
  | jsonDecode   -- `json.JSONDecodeError`: "错误: 无效的 JSON 字符串。"
  | keyMissing   -- `KeyError`: "错误: JSON 中找不到键 '...'。"
  | b64Invalid   -- `base64.binascii.Error`: "错误: 无效的 Base64 字符串。"
  | ioError      -- `IOError` while writing
  | unknown      -- the catch-all `except Exception`
deriving DecidableEq

/-- `base64_json_to_image`, modelled as a function from the input text and
key to (bytes written to the output path, if the write step was reached;
returned Boolean; diagnostic printed, if any).  Failure routing follows
the `except` clauses: a parse failure is `JSONDecodeError`; `data[data_key]`
raises `KeyError` only when `data` is a dict without the key — on a
non-dict it raises `TypeError`, which only the catch-all handles; `re.sub`
on a non-string value raises `TypeError` (catch-all); a non-ASCII value
raises a plain `ValueError` inside `b64decode` (catch-all); Base64 data
errors are `binascii.Error`.  The model's write step always succeeds, so
`Diag.ioError` is never produced (the pure model has no I/O failures). -/
def base64_json_to_image (input : Chars) (dataKey : Chars) :
    Option (List Nat) × Bool × Option Diag :=
  match parseJson input with
  | none => (none, false, some Diag.jsonDecode)
  | some data =>
    match data with
    | JValue.jobj kvs =>
      match lookupKey kvs dataKey with
      | none => (none, false, some Diag.keyMissing)
      | some v =>
        match v with
        | JValue.jstr s =>
          match b64decodePy (stripDataUri s) with
          | Except.ok bytes => (some bytes, true, none)
          | Except.error e =>
            match e with
            | DecErr.badData => (none, false, some Diag.b64Invalid)
            | DecErr.notAscii => (none, false, some Diag.unknown)
        | _ => (none, false, some Diag.unknown)
    | _ => (none, false, some Diag.unknown)

/-- The JSON document `{"b64_json": "<payload>"}` used by the round-trip
property. -/
def wrapDoc (payload : Chars) : Chars :=
  "\x7b\"b64_json\": \"".data ++ payload ++ "\"\x7d".data

/-!
## Generic lemmas about the substitution engine
-/

/-- A positive pending-skip counter just drops characters. -/
theorem substAux_skip (m : Chars → Option (Nat × Chars)) :
    ∀ (k : Nat) (cs : Chars), substAux m k cs = substAux m 0 (cs.drop k) := by
  intro k
  induction k with
  | zero => intro cs; rfl
  | succ k ih =>
    intro cs
    cases cs with
    | nil => rfl
    | cons c cs => simpa [substAux] using ih cs

/-- If the matcher matches nowhere, substitution is the identity. -/
theorem substAll_id (m : Chars → Option (Nat × Chars)) :
    ∀ (l : Chars), noMatches m l = true → substAll m l = l := by
  intro l
  induction l with
  | nil => intro _; rfl
  | cons c cs ih =>
    intro h
    simp only [noMatches, Bool.and_eq_true, Option.isNone_iff_eq_none] at h
    simp only [substAll, substAux, h.1]
    exact congrArg (c :: ·) (ih h.2)

/-- A match at the head of the text is replaced, and substitution
continues after it. -/
theorem substAll_head (m : Chars → Option (Nat × Chars)) (l rep : Chars) (n : Nat)
    (hm : m l = some (n, rep)) (hn : 1 ≤ n) (hl : l ≠ []) :
    substAll m l = rep ++ substAll m (l.drop n) := by
  cases l with
  | nil => exact absurd rfl hl
  | cons c cs =>
    simp only [substAll, substAux, hm]
    rw [substAux_skip]
    cases n with
    | zero => omega
    | succ n => simp

/-!
## Claim theorems
-/

/-- C2: In Script A's splitting of a `.properties([...])` argument list, a
comma inside nested `[...]` or `(...)` (either depth counter nonzero) is
never treated as an item separator: one splitting step produces a new item
if and only if the character is a comma and both the bracket and the
parenthesis counters are zero. -/
theorem c2_nested_commas_never_split (st : SplitSt) (c : Char) :
    (stepSplit st c).items ≠ st.items ↔ (c = ',' ∧ st.bracket = 0 ∧ st.paren = 0) := by
  have hne : st.items ++ [pyStrip st.current] ≠ st.items := by
    intro h
    have := congrArg List.length h
    simp at this
  unfold stepSplit
  split_ifs with h1 h2 h3 h4 h5 <;> simp_all

/-- C3 counterexample: on `.inputs([a, b])` Script A emits the single call
`.add_input(a, b)` — the whole bracketed list becomes ONE argument — not
one `.add_input` call per top-level comma-separated item. -/
theorem c3_counterexample :
    fixContent ".inputs([a, b])".data = ".add_input(a, b)".data ∧
      ".add_input(a, b)".data ≠ ".add_input(a).add_input(b)".data := by
  constructor
  · decide
  · decide

/-- C3 amended: rules 2 and 3 do not split on top-level commas.  Each
`.inputs([...])` (resp. `.outputs([...])`) occurrence whose bracketed
content is nonempty and free of `]` is rewritten into a SINGLE
`.add_input(...)` (resp. `.add_output(...)`) call whose argument is the
entire stripped list content, internal commas included. -/
theorem c3_single_call_rewrite (g post : Chars) (hg : g ≠ [])
    (hbr : ∀ c ∈ g, c ≠ ']') :
    step2 (inputsPat ++ g ++ ']' :: ')' :: post)
        = ".add_input(".data ++ pyStrip g ++ ')' :: step2 post ∧
      step3 (outputsPat ++ g ++ ']' :: ')' :: post)
        = ".add_output(".data ++ pyStrip g ++ ')' :: step3 post := by
  have htw : ∀ rest : Chars, (g ++ ']' :: rest).takeWhile (fun c => c ≠ ']') = g := by
    intro rest
    rw [List.takeWhile_append_of_pos (by simpa using hbr)]
    simp [List.takeWhile]
  have hglen : 1 ≤ g.length := by
    cases g with
    | nil => exact absurd rfl hg
    | cons a as => simp
  constructor
  · have hpre : inputsPat.isPrefixOf (inputsPat ++ g ++ ']' :: ')' :: post) = true := by
      rw [List.isPrefixOf_iff_prefix]
      exact ⟨g ++ ']' :: ')' :: post, by simp⟩
    have hm : matchInputs (inputsPat ++ g ++ ']' :: ')' :: post)
        = some (inputsPat.length + g.length + 2,
                ".add_input(".data ++ pyStrip g ++ [')']) := by
      unfold matchInputs
      rw [hpre]
      simp only [List.append_assoc, List.drop_left]
      rw [htw]
      have : g.length ≠ 0 := by omega
      simp [this, List.drop_left' rfl]
    rw [show step2 = substAll matchInputs from rfl,
        substAll_head matchInputs _ _ _ hm (by omega) (by simp [inputsPat])]
    have hdrop : (inputsPat ++ g ++ ']' :: ')' :: post).drop (inputsPat.length + g.length + 2)
        = post := by
      have hsplit : inputsPat ++ g ++ ']' :: ')' :: post
          = (inputsPat ++ g ++ [']', ')']) ++ post := by
        simp
      rw [hsplit, List.drop_left' (by simp [List.length_append]; omega)]
    rw [hdrop]
    simp [step2]
  · have hpre : outputsPat.isPrefixOf (outputsPat ++ g ++ ']' :: ')' :: post) = true := by
      rw [List.isPrefixOf_iff_prefix]
      exact ⟨g ++ ']' :: ')' :: post, by simp⟩
    have hm : matchOutputs (outputsPat ++ g ++ ']' :: ')' :: post)
        = some (outputsPat.length + g.length + 2,
                ".add_output(".data ++ pyStrip g ++ [')']) := by
      unfold matchOutputs
      rw [hpre]
      simp only [List.append_assoc, List.drop_left]
      rw [htw]
      have : g.length ≠ 0 := by omega
      simp [this, List.drop_left' rfl]
    rw [show step3 = substAll matchOutputs from rfl,
        substAll_head matchOutputs _ _ _ hm (by omega) (by simp [outputsPat])]
    have hdrop : (outputsPat ++ g ++ ']' :: ')' :: post).drop (outputsPat.length + g.length + 2)
        = post := by
      have hsplit : outputsPat ++ g ++ ']' :: ')' :: post
          = (outputsPat ++ g ++ [']', ')']) ++ post := by
        simp
      rw [hsplit, List.drop_left' (by simp [List.length_append]; omega)]
    rw [hdrop]
    simp [step3]

/-- Witness for `c3_single_call_rewrite` at `g = "a, b"`, `post = ";"`. -/
theorem c3_single_call_rewrite_witness :
    step2 (inputsPat ++ "a, b".data ++ ']' :: ')' :: ";".data)
        = ".add_input(".data ++ pyStrip "a, b".data ++ ')' :: step2 ";".data ∧
      step3 (outputsPat ++ "a, b".data ++ ']' :: ')' :: ";".data)
        = ".add_output(".data ++ pyStrip "a, b".data ++ ')' :: step3 ";".data :=
  c3_single_call_rewrite "a, b".data ";".data (by decide) (by decide)

/-- C4 counterexample: Script A's transformation is not idempotent.  On
`.ver.version(a)sion(b)` rule 1 removes the inner `.version(a)` call,
splicing the surrounding text into the NEW call `.version(b)`, which a
second pass removes; so the second pass changes the first pass's output. -/
theorem c4_counterexample :
    fixContent (fixContent ".ver.version(a)sion(b)".data)
      ≠ fixContent ".ver.version(a)sion(b)".data := by
  decide

/-- C4 amended: the transformation is not idempotent in general (rule 1
can splice surrounding text into a fresh `.version(...)` match, see the
counterexample).  What does hold is that a second pass is a no-op on every
text that the transformation leaves unchanged: a fixed point of
`fixContent` stays fixed. -/
theorem c4_second_pass_on_fixed_point (s : Chars) (h : fixContent s = s) :
    fixContent (fixContent s) = fixContent s := by
  simp [h]

/-- Witness for `c4_second_pass_on_fixed_point` at a concrete fixed
point. -/
theorem c4_second_pass_on_fixed_point_witness :
    fixContent "let x = 1;".data = "let x = 1;".data ∧
      fixContent (fixContent "let x = 1;".data) = fixContent "let x = 1;".data :=
  ⟨by decide, c4_second_pass_on_fixed_point "let x = 1;".data (by decide)⟩

/-- C6: on a text with zero occurrences of any targeted pattern, the
transformation is the identity, no write happens and the function returns
`False`; and in general a write happens only when the transformed text
differs from the original. -/
theorem c6_identity_no_write (content : Chars)
    (h1 : noMatches matchVersion content = true)
    (h2 : noMatches matchInputs content = true)
    (h3 : noMatches matchOutputs content = true)
    (h4 : findOcc propertiesPat content = [])
    (h5 : noMatches matchKindOptions content = true)
    (h6 : findOcc nodePropBuilderPat content = [])
    (h7 : noMatches matchBaseQ content = true)
    (h8 : noMatches matchNodeDefNew content = true) :
    fixContent content = content ∧
      fix_node_definition_file content = (none, false) ∧
      ∀ c : Chars, (fix_node_definition_file c).1.isSome ↔ fixContent c ≠ c := by
  have hfix : fixContent content = content := by
    unfold fixContent
    rw [show step1 content = content from substAll_id _ _ h1,
        show step2 content = content from substAll_id _ _ h2,
        show step3 content = content from substAll_id _ _ h3,
        show step4 content = content by rw [step4, h4]; rfl,
        show step5 content = content from substAll_id _ _ h5,
        show step6 content = content by rw [step6, h6]; rfl,
        show step7 content = content from substAll_id _ _ h7,
        show step8 content = content from substAll_id _ _ h8]
  refine ⟨hfix, ?_, ?_⟩
  · unfold fix_node_definition_file
    simp [hfix]
  · intro c
    unfold fix_node_definition_file
    by_cases h : fixContent c = c <;> simp [h]

/-- Witness for `c6_identity_no_write` on a pattern-free text. -/
theorem c6_identity_no_write_witness :
    fixContent "fn main() \x7b println!(\"hi\"); \x7d".data
        = "fn main() \x7b println!(\"hi\"); \x7d".data ∧
      fix_node_definition_file "fn main() \x7b println!(\"hi\"); \x7d".data = (none, false) ∧
      ∀ c : Chars, (fix_node_definition_file c).1.isSome ↔ fixContent c ≠ c :=
  c6_identity_no_write "fn main() \x7b println!(\"hi\"); \x7d".data
    (by decide) (by decide) (by decide) (by decide)
    (by decide) (by decide) (by decide) (by decide)

/-- The rule-6 forward scan stops exactly at the first stop character that
sits at parenthesis depth 0: if the chain's internal stop characters are
all at nonzero depth and the chain's net depth is zero, the scan over
`chain ++ stop :: post` returns `chain.length`. -/
theorem scanChain_spec :
    ∀ (chain : Chars) (d : Int) (stop : Char) (post : Chars),
      stopChar stop → d + pnDelta chain = 0 →
      (∀ n, n < chain.length → stopChar (chain.getD n ' ') → d + pnDelta (chain.take n) ≠ 0) →
      scanChain (chain ++ stop :: post) d = chain.length := by
  intro chain
  induction chain with
  | nil =>
    intro d stop post hstop hd _
    have hd0 : d = 0 := by simpa [pnDelta] using hd
    subst hd0
    have h1 : stop ≠ '(' := by rcases hstop with h | h | h | h <;> simp [h]
    have h2 : stop ≠ ')' := by rcases hstop with h | h | h | h <;> simp [h]
    simp [scanChain, h1, h2, hstop]
  | cons c cs ih =>
    intro d stop post hstop hd hno
    have htail : ∀ n, n < cs.length → stopChar (cs.getD n ' ') →
        (d + charPn c) + pnDelta (cs.take n) ≠ 0 := by
      intro n hn hsc
      have := hno (n + 1) (by simpa using Nat.succ_lt_succ hn) (by simpa using hsc)
      simpa [pnDelta, add_assoc] using this
    have hd' : (d + charPn c) + pnDelta cs = 0 := by
      simpa [pnDelta, add_assoc] using hd
    by_cases hc1 : c = '('
    · subst hc1
      have : scanChain (cs ++ stop :: post) (d + 1) = cs.length :=
        ih (d + 1) stop post hstop (by simpa [charPn] using hd') (by simpa [charPn] using htail)
      simp [scanChain, this]
      omega
    · by_cases hc2 : c = ')'
      · subst hc2
        have : scanChain (cs ++ stop :: post) (d - 1) = cs.length :=
          ih (d - 1) stop post hstop (by simpa [charPn, sub_eq_add_neg] using hd')
            (by simpa [charPn, sub_eq_add_neg] using htail)
        simp [scanChain, this]
        omega
      · have hpn : charPn c = 0 := by simp [charPn, hc1, hc2]
        have hrec : scanChain (cs ++ stop :: post) d = cs.length :=
          ih d stop post hstop (by simpa [hpn] using hd') (by simpa [hpn] using htail)
        by_cases hsc : stopChar c
        · have hd0 : d ≠ 0 := by
            have := hno 0 (by simp) (by simpa using hsc)
            simpa [pnDelta] using this
          simp [scanChain, hc1, hc2, hd0, hrec]
          omega
        · simp [scanChain, hc1, hc2, hsc, hrec]
          omega

/-- C5 counterexample: for `NodePropertyKindOptions::builder().foo(),` the
claimed depth-aware scan stops at the top-level `,`, the scanned chain
`.foo()` contains no `.build()`, so the claim requires `.build()` to be
appended; Script A leaves the text unchanged, because rule 5's regex group
`[^.]*?` cannot cross the `.` of `.foo()` and the lookahead fails at every
allowed position. -/
theorem c5_counterexample :
    fixContent "NodePropertyKindOptions::builder().foo(),".data
        = "NodePropertyKindOptions::builder().foo(),".data ∧
      "NodePropertyKindOptions::builder().foo(),".data
        ≠ "NodePropertyKindOptions::builder().foo().build(),".data := by
  constructor
  · decide
  · decide

/-- C5 amended: only `NodeProperty::builder()` (rule 6) gets the
depth-aware treatment of the claim: scanning forward from the invocation
to the first top-level `,`/`;`/`}`/`]`, `.build()` is appended there
exactly when the scanned chain does not already contain `.build()`.  For
`NodePropertyKindOptions::builder()` (rule 5) the regex appends `.build()`
only when a dot-free stretch after the invocation reaches a position whose
next non-whitespace character is `,` or `)`; in particular a chain that
continues with a `.` immediately after `builder()` never matches and is
left unchanged. -/
theorem c5_build_appending (pre chain : Chars) (stop : Char) (post : Chars)
    (hocc : findOcc nodePropBuilderPat (pre ++ nodePropBuilderPat ++ chain ++ stop :: post)
              = [pre.length])
    (hstop : stopChar stop)
    (hbal : pnDelta chain = 0)
    (hnostop : ∀ n, n < chain.length → stopChar (chain.getD n ' ') →
                 pnDelta (chain.take n) ≠ 0) :
    (step6 (pre ++ nodePropBuilderPat ++ chain ++ stop :: post)
        = if hasSub buildDotPat chain
          then pre ++ nodePropBuilderPat ++ chain ++ stop :: post
          else pre ++ nodePropBuilderPat ++ chain ++ buildDotPat ++ stop :: post) ∧
      ∀ rest : Chars, matchKindOptions (kindOptionsPat ++ '.' :: rest) = none := by
  constructor
  · have hscan : scanChain (chain ++ stop :: post) 0 = chain.length :=
      scanChain_spec chain 0 stop post hstop (by simpa using hbal)
        (by intro n hn hsc; simpa using hnostop n hn hsc)
    have hdrop : (pre ++ nodePropBuilderPat ++ chain ++ stop :: post).drop
        (pre.length + nodePropBuilderPat.length) = chain ++ stop :: post := by
      have hsplit : pre ++ nodePropBuilderPat ++ chain ++ stop :: post
          = (pre ++ nodePropBuilderPat) ++ (chain ++ stop :: post) := by simp
      rw [hsplit, List.drop_left' (by simp)]
    rw [step6, hocc]
    show processBuilder (pre ++ nodePropBuilderPat ++ chain ++ stop :: post) pre.length = _
    simp only [processBuilder, hdrop, hscan, List.take_left]
    by_cases hb : hasSub buildDotPat chain
    · simp [hb]
    · have htake : (pre ++ nodePropBuilderPat ++ chain ++ stop :: post).take
          (pre.length + nodePropBuilderPat.length + chain.length)
            = pre ++ nodePropBuilderPat ++ chain := by
        have hsplit : pre ++ nodePropBuilderPat ++ chain ++ stop :: post
            = (pre ++ nodePropBuilderPat ++ chain) ++ stop :: post := by simp
        rw [hsplit, List.take_left' (by simp [List.length_append]; omega)]
      have hdrop2 : (pre ++ nodePropBuilderPat ++ chain ++ stop :: post).drop
          (pre.length + nodePropBuilderPat.length + chain.length) = stop :: post := by
        have hsplit : pre ++ nodePropBuilderPat ++ chain ++ stop :: post
            = (pre ++ nodePropBuilderPat ++ chain) ++ stop :: post := by simp
        rw [hsplit, List.drop_left' (by simp [List.length_append]; omega)]
      simp only [hb, if_false]
      rw [htake, hdrop2]
  · intro rest
    have hpre : kindOptionsPat.isPrefixOf (kindOptionsPat ++ '.' :: rest) = true := by
      rw [List.isPrefixOf_iff_prefix]
      exact ⟨'.' :: rest, rfl⟩
    unfold matchKindOptions
    rw [hpre]
    simp only [List.drop_left]
    have hla : lookaheadOk ('.' :: rest) = false := by
      simp [lookaheadOk, skipWs, List.dropWhile, isPyWs]
    simp [findLazyK, hla]

/-- Witness for `c5_build_appending` at
`let p = NodeProperty::builder().kind(k);`. -/
theorem c5_build_appending_witness :
    (step6 ("let p = ".data ++ nodePropBuilderPat ++ ".kind(k)".data ++ ';' :: [])
        = if hasSub buildDotPat ".kind(k)".data
          then "let p = ".data ++ nodePropBuilderPat ++ ".kind(k)".data ++ ';' :: []
          else "let p = ".data ++ nodePropBuilderPat ++ ".kind(k)".data ++ buildDotPat
                 ++ ';' :: []) ∧
      matchKindOptions (kindOptionsPat ++ '.' :: "foo(),".data) = none :=
  ⟨(c5_build_appending "let p = ".data ".kind(k)".data ';' []
      (by decide) (by decide) (by decide) (by decide)).1,
   (c5_build_appending "let p = ".data ".kind(k)".data ';' []
      (by decide) (by decide) (by decide) (by decide)).2 "foo(),".data⟩

/-!
## Infrastructure for the `.properties([...])` rewrite (C1)
-/

/-- `", "`-joined item list, as it appears inside `.properties([ ... ])`. -/
def joinItems : List Chars → Chars
  | [] => []
  | [it] => it
  | it :: it2 :: rest => it ++ ',' :: ' ' :: joinItems (it2 :: rest)

/-- The chained replacement `.add_property(A).add_property(B)...`. -/
def chainCalls (items : List Chars) : Chars :=
  (items.map (fun it => ".add_property(".data ++ it ++ [')'])).flatten

/-- A well-formed argument item: nonempty, already stripped, with balanced
net bracket/parenthesis depth, and no comma at depth (0,0) (its internal
commas sit inside nested brackets or parentheses). -/
def GoodItem (it : Chars) : Prop :=
  it ≠ [] ∧ pyStrip it = it ∧ brDelta it = 0 ∧ pnDelta it = 0 ∧
    ∀ n, n < it.length → it.getD n ' ' = ',' →
      ¬(brDelta (it.take n) = 0 ∧ pnDelta (it.take n) = 0)

instance (it : Chars) : Decidable (GoodItem it) := by
  unfold GoodItem
  infer_instance

theorem brDelta_append (a b : Chars) : brDelta (a ++ b) = brDelta a + brDelta b := by
  induction a with
  | nil => simp [brDelta]
  | cons c cs ih => simp [brDelta, ih, add_assoc]

theorem pnDelta_append (a b : Chars) : pnDelta (a ++ b) = pnDelta a + pnDelta b := by
  induction a with
  | nil => simp [pnDelta]
  | cons c cs ih => simp [pnDelta, ih, add_assoc]

theorem joinItems_brDelta (items : List Chars) (h : ∀ it ∈ items, brDelta it = 0) :
    brDelta (joinItems items) = 0 := by
  induction items with
  | nil => simp [joinItems, brDelta]
  | cons it rest ih =>
    cases rest with
    | nil => simpa [joinItems] using h it (by simp)
    | cons it2 rest2 =>
      have hit : brDelta it = 0 := h it (by simp)
      have hrest : brDelta (joinItems (it2 :: rest2)) = 0 :=
        ih (fun x hx => h x (by simp [hx]))
      simp [joinItems, brDelta_append, hit, brDelta, charBr, hrest]

/-- Stripping whitespace prepended to a list is the same as stripping the
list. -/
theorem pyStrip_ws_append (ws x : Chars) (h : ∀ c ∈ ws, isPyWs c = true) :
    pyStrip (ws ++ x) = pyStrip x := by
  unfold pyStrip
  rw [List.dropWhile_append_of_pos h]

/-- The matching-bracket scan of rule 4: starting just inside the opening
bracket with count 1, if every prefix of `L` keeps the count positive and
`L` is balanced, the scan finds exactly the `]` after `L`. -/
theorem findClose_spec :
    ∀ (L : Chars) (bc : Int) (i : Nat) (rest : Chars),
      (∀ n, n ≤ L.length → 0 < bc + brDelta (L.take n)) →
      bc + brDelta L = 1 →
      findCloseAux (L ++ ']' :: rest) bc i = some (i + L.length) := by
  intro L
  induction L with
  | nil =>
    intro bc i rest _ hend
    have hbc : bc = 1 := by simpa [brDelta] using hend
    subst hbc
    simp [findCloseAux]
  | cons c cs ih =>
    intro bc i rest hpos hend
    have hpos' : ∀ n, n ≤ cs.length → 0 < (bc + charBr c) + brDelta (cs.take n) := by
      intro n hn
      have := hpos (n + 1) (by simpa using Nat.succ_le_succ hn)
      simpa [brDelta, add_assoc] using this
    have hend' : (bc + charBr c) + brDelta cs = 1 := by
      simpa [brDelta, add_assoc] using hend
    by_cases hc1 : c = '['
    · subst hc1
      have := ih (bc + 1) (i + 1) rest (by simpa [charBr] using hpos')
        (by simpa [charBr] using hend')
      simp [findCloseAux, this]
      omega
    · by_cases hc2 : c = ']'
      · subst hc2
        have hne : ¬(bc - 1 = 0) := by
          have := hpos 1 (by simp)
          simp [brDelta, charBr] at this
          omega
        have := ih (bc - 1) (i + 1) rest
          (by simpa [charBr, sub_eq_add_neg] using hpos')
          (by simpa [charBr, sub_eq_add_neg] using hend')
        simp [findCloseAux, hne, this]
        omega
      · have hcb : charBr c = 0 := by simp [charBr, hc1, hc2]
        have := ih bc (i + 1) rest (by simpa [hcb] using hpos') (by simpa [hcb] using hend')
        simp [findCloseAux, hc1, hc2, this]
        omega

/-- Running the splitting loop through a stretch containing no comma at
depth (0,0) relative to the starting counters just accumulates the
characters and shifts the counters. -/
theorem foldSplit_noSplit :
    ∀ (it : Chars) (b p : Int) (cur : Chars) (acc : List Chars),
      (∀ n, n < it.length → it.getD n ' ' = ',' →
        ¬(b + brDelta (it.take n) = 0 ∧ p + pnDelta (it.take n) = 0)) →
      it.foldl stepSplit ⟨b, p, cur, acc⟩
        = ⟨b + brDelta it, p + pnDelta it, cur ++ it, acc⟩ := by
  intro it
  induction it with
  | nil =>
    intro b p cur acc _
    simp [brDelta, pnDelta]
  | cons c cs ih =>
    intro b p cur acc hno
    have hno' : ∀ n, n < cs.length → cs.getD n ' ' = ',' →
        ¬((b + charBr c) + brDelta (cs.take n) = 0 ∧ (p + charPn c) + pnDelta (cs.take n) = 0) := by
      intro n hn hcomma
      have := hno (n + 1) (by simpa using Nat.succ_lt_succ hn) (by simpa using hcomma)
      simpa [brDelta, pnDelta, add_assoc] using this
    have hstep : stepSplit ⟨b, p, cur, acc⟩ c
        = ⟨b + charBr c, p + charPn c, cur ++ [c], acc⟩ := by
      by_cases h1 : c = '['
      · simp [stepSplit, h1, charBr, charPn]
      · by_cases h2 : c = ']'
        · simp [stepSplit, h1, h2, charBr, charPn, sub_eq_add_neg]
        · by_cases h3 : c = '('
          · simp [stepSplit, h1, h2, h3, charBr, charPn]
          · by_cases h4 : c = ')'
            · simp [stepSplit, h1, h2, h3, h4, charBr, charPn, sub_eq_add_neg]
            · by_cases h5 : c = ','
              · have hnz : ¬(b = 0 ∧ p = 0) := by
                  have := hno 0 (by simp) (by simp [h5])
                  simpa [brDelta, pnDelta] using this
                have hcond : ¬(c = ',' ∧ b = 0 ∧ p = 0) := by tauto
                (simp [stepSplit, h1, h2, h3, h4, hcond, charBr, charPn, h5]; tauto)
              · have hcond : ¬(c = ',' ∧ b = 0 ∧ p = 0) := by tauto
                simp [stepSplit, h1, h2, h3, h4, hcond, charBr, charPn, h5]
    rw [List.foldl_cons, hstep, ih (b + charBr c) (p + charPn c) (cur ++ [c]) acc hno']
    simp [brDelta, pnDelta, add_assoc]

/-- The splitting loop of rule 4, run on a `", "`-joined list of
well-formed items starting after optional whitespace, recovers exactly the
items. -/
theorem splitJoin :
    ∀ (items : List Chars) (ws : Chars) (acc : List Chars),
      items ≠ [] → (∀ it ∈ items, GoodItem it) → (∀ c ∈ ws, isPyWs c = true) →
      (if (pyStrip ((joinItems items).foldl stepSplit ⟨0, 0, ws, acc⟩).current).isEmpty
       then ((joinItems items).foldl stepSplit ⟨0, 0, ws, acc⟩).items
       else ((joinItems items).foldl stepSplit ⟨0, 0, ws, acc⟩).items
              ++ [pyStrip ((joinItems items).foldl stepSplit ⟨0, 0, ws, acc⟩).current])
        = acc ++ items := by
  intro items
  induction items with
  | nil => intro _ _ h; exact absurd rfl h
  | cons it rest ih =>
    intro ws acc _ hgood hws
    have hit : GoodItem it := hgood it (by simp)
    obtain ⟨hne, hstrip, hbr0, hpn0, hcomma⟩ := hit
    have hfold : it.foldl stepSplit ⟨0, 0, ws, acc⟩ = ⟨0, 0, ws ++ it, acc⟩ := by
      have := foldSplit_noSplit it 0 0 ws acc (by
        intro n hn hc
        have := hcomma n hn hc
        simpa using this)
      simpa [hbr0, hpn0] using this
    have hstripws : pyStrip (ws ++ it) = it := by
      rw [pyStrip_ws_append ws it hws, hstrip]
    cases rest with
    | nil =>
      have hempty : (pyStrip (ws ++ it)).isEmpty = false := by
        rw [hstripws]
        cases it with
        | nil => exact absurd rfl hne
        | cons a as => rfl
      simp only [joinItems, hfold]
      simp [hempty, hstripws, hne]
    | cons it2 rest2 =>
      have hjoin : joinItems (it :: it2 :: rest2)
          = it ++ ',' :: ' ' :: joinItems (it2 :: rest2) := rfl
      have hsep1 : stepSplit ⟨0, 0, ws ++ it, acc⟩ ','
          = ⟨0, 0, [], acc ++ [pyStrip (ws ++ it)]⟩ := by
        simp [stepSplit]
      have hsep2 : stepSplit ⟨0, 0, [], acc ++ [it]⟩ ' ' = ⟨0, 0, [' '], acc ++ [it]⟩ := by
        simp [stepSplit]
      rw [hjoin, List.foldl_append, hfold, List.foldl_cons, hsep1, hstripws,
          List.foldl_cons, hsep2]
      have := ih [' '] (acc ++ [it]) (by simp) (fun x hx => hgood x (by simp [hx]))
        (by intro c hc; simp at hc; simp [hc, isPyWs])
      rw [this]
      simp

/-- The emission loop of rule 4 over already-stripped nonempty items
produces the chained `.add_property` calls. -/
theorem newCalls_eq :
    ∀ (items : List Chars) (acc : Chars),
      (∀ it ∈ items, pyStrip it = it ∧ it ≠ []) →
      items.foldl
        (fun acc it => if (pyStrip it).isEmpty then acc
                       else acc ++ ".add_property(".data ++ pyStrip it ++ [')']) acc
        = acc ++ chainCalls items := by
  intro items
  induction items with
  | nil => intro acc _; simp [chainCalls]
  | cons it rest ih =>
    intro acc h
    have hit := h it (by simp)
    rw [List.foldl_cons]
    rw [if_neg (by rw [hit.1]; simpa using hit.2)]
    rw [ih _ (fun x hx => h x (by simp [hx]))]
    simp [chainCalls, hit.1, List.append_assoc]

/-- C1: a text containing the single occurrence `.properties([A, B, C])`
(with well-formed, stripped, comma-joined items whose nested brackets are
balanced) and no other targeted pattern is rewritten by Script A into
exactly `.add_property(A).add_property(B).add_property(C)` in place of
that occurrence — one chained call per item, no separator artifacts. -/
theorem c1_properties_exact_rewrite
    (pre post : Chars) (items : List Chars)
    (hne : items ≠ [])
    (hgood : ∀ it ∈ items, GoodItem it)
    (hbr : ∀ n, n ≤ (joinItems items).length → 0 ≤ brDelta ((joinItems items).take n))
    (hocc : findOcc propertiesPat
        (pre ++ propertiesPat ++ joinItems items ++ ']' :: ')' :: post) = [pre.length])
    (h1 : noMatches matchVersion
        (pre ++ propertiesPat ++ joinItems items ++ ']' :: ')' :: post) = true)
    (h2 : noMatches matchInputs
        (pre ++ propertiesPat ++ joinItems items ++ ']' :: ')' :: post) = true)
    (h3 : noMatches matchOutputs
        (pre ++ propertiesPat ++ joinItems items ++ ']' :: ')' :: post) = true)
    (h5 : noMatches matchKindOptions (pre ++ chainCalls items ++ post) = true)
    (h6 : findOcc nodePropBuilderPat (pre ++ chainCalls items ++ post) = [])
    (h7 : noMatches matchBaseQ (pre ++ chainCalls items ++ post) = true)
    (h8 : noMatches matchNodeDefNew (pre ++ chainCalls items ++ post) = true) :
    fixContent (pre ++ propertiesPat ++ joinItems items ++ ']' :: ')' :: post)
      = pre ++ chainCalls items ++ post := by
  have hplen : propertiesPat.length = 13 := rfl
  have hbrL : brDelta (joinItems items) = 0 :=
    joinItems_brDelta items (fun it h => ((hgood it h).2.2.1))
  have hdropA : (pre ++ propertiesPat ++ joinItems items ++ ']' :: ')' :: post).drop
      (pre.length + propertiesPat.length - 1)
      = '[' :: (joinItems items ++ ']' :: ')' :: post) := by
    have hassoc : pre ++ propertiesPat ++ joinItems items ++ ']' :: ')' :: post
        = (pre ++ ".properties(".data)
            ++ ('[' :: (joinItems items ++ ']' :: ')' :: post)) := by
      have h13 : propertiesPat = ".properties(".data ++ ['['] := rfl
      rw [h13]
      simp [List.append_assoc]
    rw [hassoc, List.drop_left' (by simp [List.length_append]; omega)]
  have hclose : findCloseAux ('[' :: (joinItems items ++ ']' :: ')' :: post)) 0 0
      = some (1 + (joinItems items).length) := by
    have hstep : findCloseAux ('[' :: (joinItems items ++ ']' :: ')' :: post)) 0 0
        = findCloseAux (joinItems items ++ ']' :: ')' :: post) 1 1 := by
      simp [findCloseAux]
    rw [hstep, findClose_spec (joinItems items) 1 1 (')' :: post)
        (by intro n hn; have := hbr n hn; omega)
        (by simp [hbrL])]
  have htake1 : (joinItems items ++ ']' :: ')' :: post).take ((joinItems items).length + 1)
      = joinItems items ++ [']'] := by
    rw [List.take_append_eq_append_take, List.take_of_length_le (by omega)]
    simp
  have htake2 : ('[' :: (joinItems items ++ ']' :: ')' :: post)).take
      (1 + (joinItems items).length + 1) = '[' :: (joinItems items ++ [']']) := by
    rw [show 1 + (joinItems items).length + 1 = ((joinItems items).length + 1) + 1 by omega,
        List.take_succ_cons, htake1]
  have hitems : splitItems ('[' :: (joinItems items ++ [']'])) = items := by
    unfold splitItems
    have hinner : (('[' :: (joinItems items ++ [']'])).drop 1).take
        (('[' :: (joinItems items ++ [']'])).length - 2) = joinItems items := by
      simp only [List.drop_succ_cons, List.drop_zero, List.length_cons, List.length_append,
        List.length_singleton]
      rw [List.take_append_eq_append_take, List.take_of_length_le (by omega)]
      simp
    rw [hinner]
    have := splitJoin items [] [] hne hgood (by intro c hc; simp at hc)
    simpa using this
  have hgsimple : ∀ it ∈ items, pyStrip it = it ∧ it ≠ [] := by
    intro it h
    exact ⟨(hgood it h).2.1, (hgood it h).1⟩
  have hstep4 : step4 (pre ++ propertiesPat ++ joinItems items ++ ']' :: ')' :: post)
      = pre ++ chainCalls items ++ post := by
    rw [step4, hocc]
    show processProps (pre ++ propertiesPat ++ joinItems items ++ ']' :: ')' :: post)
        pre.length = _
    unfold processProps
    simp only [hdropA, hclose]
    rw [htake2, hitems]
    rw [newCalls_eq items [] hgsimple]
    have htakepre : (pre ++ propertiesPat ++ joinItems items ++ ']' :: ')' :: post).take
        pre.length = pre := by
      have hassoc : pre ++ propertiesPat ++ joinItems items ++ ']' :: ')' :: post
          = pre ++ (propertiesPat ++ joinItems items ++ ']' :: ')' :: post) := by
        simp [List.append_assoc]
      rw [hassoc, List.take_left' rfl]
    have hdropend : (pre ++ propertiesPat ++ joinItems items ++ ']' :: ')' :: post).drop
        (pre.length + propertiesPat.length - 1 + (1 + (joinItems items).length) + 2)
        = post := by
      have hassoc : pre ++ propertiesPat ++ joinItems items ++ ']' :: ')' :: post
          = (pre ++ propertiesPat ++ joinItems items ++ [']', ')']) ++ post := by
        simp [List.append_assoc]
      rw [hassoc, List.drop_left' (by simp [List.length_append]; omega)]
    rw [htakepre, hdropend]
    simp
  have e1 : step1 (pre ++ propertiesPat ++ joinItems items ++ ']' :: ')' :: post)
      = pre ++ propertiesPat ++ joinItems items ++ ']' :: ')' :: post :=
    substAll_id matchVersion _ h1
  have e2 : step2 (pre ++ propertiesPat ++ joinItems items ++ ']' :: ')' :: post)
      = pre ++ propertiesPat ++ joinItems items ++ ']' :: ')' :: post :=
    substAll_id matchInputs _ h2
  have e3 : step3 (pre ++ propertiesPat ++ joinItems items ++ ']' :: ')' :: post)
      = pre ++ propertiesPat ++ joinItems items ++ ']' :: ')' :: post :=
    substAll_id matchOutputs _ h3
  have e5 : step5 (pre ++ chainCalls items ++ post) = pre ++ chainCalls items ++ post :=
    substAll_id matchKindOptions _ h5
  have e6 : step6 (pre ++ chainCalls items ++ post) = pre ++ chainCalls items ++ post := by
    rw [step6, h6]; rfl
  have e7 : step7 (pre ++ chainCalls items ++ post) = pre ++ chainCalls items ++ post :=
    substAll_id matchBaseQ _ h7
  have e8 : step8 (pre ++ chainCalls items ++ post) = pre ++ chainCalls items ++ post :=
    substAll_id matchNodeDefNew _ h8
  unfold fixContent
  rw [e1, e2, e3, hstep4, e5, e6, e7, e8]

/-- Witness for `c1_properties_exact_rewrite`:
`x.properties([a, b(1, 2), c[0]]);` becomes
`x.add_property(a).add_property(b(1, 2)).add_property(c[0]);`. -/
theorem c1_properties_exact_rewrite_witness :
    fixContent ("x".data ++ propertiesPat
        ++ joinItems ["a".data, "b(1, 2)".data, "c[0]".data] ++ ']' :: ')' :: ";".data)
      = "x".data ++ chainCalls ["a".data, "b(1, 2)".data, "c[0]".data] ++ ";".data :=
  c1_properties_exact_rewrite "x".data ";".data ["a".data, "b(1, 2)".data, "c[0]".data]
    (by decide) (by decide) (by decide) (by decide) (by decide) (by decide)
    (by decide) (by decide) (by decide) (by decide) (by decide)

/-- A successful data-URI match has length at least 20, is bounded by the
value's length, and implies a nonempty value. -/
theorem matchDataUri_some (s : Chars) (n : Nat) (h : matchDataUri s = some n) :
    20 ≤ n ∧ n ≤ s.length ∧ s ≠ [] := by
  have hpre : dataUriLit.isPrefixOf s = true := by
    by_contra hn
    simp only [matchDataUri, Bool.not_eq_true] at h hn
    rw [hn] at h
    simp at h
  simp only [matchDataUri, hpre, if_true] at h
  by_cases h1 : ((s.drop dataUriLit.length).takeWhile isWordChar).length = 0
  · rw [if_pos h1] at h
    simp at h
  · rw [if_neg h1] at h
    by_cases h2 : ";base64,".data.isPrefixOf
        ((s.drop dataUriLit.length).drop
          ((s.drop dataUriLit.length).takeWhile isWordChar).length) = true
    · rw [if_pos h2] at h
      have hn := Option.some.inj h
      have hw : 1 ≤ ((s.drop dataUriLit.length).takeWhile isWordChar).length := by omega
      have hlit : dataUriLit.length = 11 := rfl
      have hs : dataUriLit.length ≤ s.length := by
        rw [List.isPrefixOf_iff_prefix] at hpre
        exact hpre.length_le
      have hsfx : (";base64,".data).length
          ≤ ((s.drop dataUriLit.length).drop
              ((s.drop dataUriLit.length).takeWhile isWordChar).length).length := by
        rw [List.isPrefixOf_iff_prefix] at h2
        exact h2.length_le
      have htw : ∀ (p : Char → Bool) (l : Chars), (l.takeWhile p).length ≤ l.length := by
        intro p l
        induction l with
        | nil => simp
        | cons c cs ih =>
          by_cases hpc : p c
          · simp [List.takeWhile, hpc]
            omega
          · simp [List.takeWhile, hpc]
      have htw2 := htw isWordChar (s.drop dataUriLit.length)
      have h8 : (";base64,".data).length = 8 := rfl
      rw [h8] at hsfx
      simp only [List.length_drop] at hsfx htw2
      refine ⟨by omega, by omega, ?_⟩
      intro hnil
      subst hnil
      simp [dataUriLit] at hpre
    · rw [if_neg h2] at h
      simp at h

/-- C8: Script B strips one leading `data:image/<token>;base64,` prefix
exactly when such a prefix is present (the value is left unchanged iff the
anchored pattern does not match), and a data-URI-prefixed value such as
`data:image/png;base64,AAAA` still decodes successfully. -/
theorem c8_data_uri_strip :
    (∀ tok rest : Chars, tok ≠ [] → (∀ c ∈ tok, isWordChar c = true) →
        stripDataUri (dataUriLit ++ tok ++ ";base64,".data ++ rest) = rest) ∧
    (∀ s : Chars, stripDataUri s = s ↔ matchDataUri s = none) ∧
    base64_json_to_image "\x7b\"b64_json\": \"data:image/png;base64,AAAA\"\x7d".data
        "b64_json".data = (some [0, 0, 0], true, none) := by
  refine ⟨?_, ?_, rfl⟩
  · intro tok rest htok hword
    have hdrop : (dataUriLit ++ tok ++ ";base64,".data ++ rest).drop dataUriLit.length
        = tok ++ ";base64,".data ++ rest := by
      have hassoc : dataUriLit ++ tok ++ ";base64,".data ++ rest
          = dataUriLit ++ (tok ++ ";base64,".data ++ rest) := by simp
      rw [hassoc, List.drop_left]
    have htw : (tok ++ ";base64,".data ++ rest).takeWhile isWordChar = tok := by
      have hassoc : tok ++ ";base64,".data ++ rest
          = tok ++ (";base64,".data ++ rest) := by simp
      rw [hassoc, List.takeWhile_append_of_pos hword]
      have : (";base64,".data ++ rest).takeWhile isWordChar = [] := by
        show ((';' :: "base64,".data) ++ rest).takeWhile isWordChar = []
        simp [List.takeWhile, isWordChar]
      rw [this, List.append_nil]
    have hdropw : (tok ++ ";base64,".data ++ rest).drop tok.length
        = ";base64,".data ++ rest := by
      have hassoc : tok ++ ";base64,".data ++ rest
          = tok ++ (";base64,".data ++ rest) := by simp
      rw [hassoc, List.drop_left]
    have hm : matchDataUri (dataUriLit ++ tok ++ ";base64,".data ++ rest)
        = some (dataUriLit.length + tok.length + 8) := by
      have hpre : dataUriLit.isPrefixOf (dataUriLit ++ tok ++ ";base64,".data ++ rest)
          = true := by
        rw [List.isPrefixOf_iff_prefix]
        exact ⟨tok ++ ";base64,".data ++ rest, by simp⟩
      have hsfx : (";base64,".data).isPrefixOf (";base64,".data ++ rest) = true := by
        rw [List.isPrefixOf_iff_prefix]
        exact ⟨rest, rfl⟩
      have hlen : tok.length ≠ 0 := by
        intro h0
        exact htok (List.length_eq_zero.mp h0)
      simp only [matchDataUri, hpre, if_true, hdrop, htw, hdropw, hlen, if_false, hsfx]
    unfold stripDataUri
    rw [hm]
    show (dataUriLit ++ tok ++ ";base64,".data ++ rest).drop
        (dataUriLit.length + tok.length + 8) = rest
    rw [List.drop_left' (by simp [List.length_append]; omega)]
  · intro s
    constructor
    · intro h
      cases hm : matchDataUri s with
      | none => rfl
      | some n =>
        obtain ⟨h20, hle, hne⟩ := matchDataUri_some s n hm
        have hds : stripDataUri s = s.drop n := by
          unfold stripDataUri
          rw [hm]
        rw [hds] at h
        have hlen := congrArg List.length h
        simp only [List.length_drop] at hlen
        omega
    · intro h
      unfold stripDataUri
      rw [h]

/-- Witness for `c8_data_uri_strip`: the general strip instantiated at
token `png` and payload `AAAA`, the unchanged-iff-no-match direction at
`AAAA`, and the concrete decode. -/
theorem c8_data_uri_strip_witness :
    stripDataUri (dataUriLit ++ "png".data ++ ";base64,".data ++ "AAAA".data) = "AAAA".data ∧
      (stripDataUri "AAAA".data = "AAAA".data ↔ matchDataUri "AAAA".data = none) ∧
      base64_json_to_image "\x7b\"b64_json\": \"data:image/png;base64,AAAA\"\x7d".data
        "b64_json".data = (some [0, 0, 0], true, none) :=
  ⟨c8_data_uri_strip.1 "png".data "AAAA".data (by decide) (by decide),
   c8_data_uri_strip.2.1 "AAAA".data, c8_data_uri_strip.2.2⟩

/-- C10: whenever `base64_json_to_image` fails at JSON parsing, key
lookup, or Base64 decoding (the three early diagnostics), it returns
`False` and the write step is never reached — nothing is written to the
output path. -/
theorem c10_no_write_on_early_failure (input dataKey : Chars)
    (h : (base64_json_to_image input dataKey).2.2 = some Diag.jsonDecode ∨
         (base64_json_to_image input dataKey).2.2 = some Diag.keyMissing ∨
         (base64_json_to_image input dataKey).2.2 = some Diag.b64Invalid) :
    (base64_json_to_image input dataKey).1 = none ∧
      (base64_json_to_image input dataKey).2.1 = false := by
  unfold base64_json_to_image at h ⊢
  cases hp : parseJson input with
  | none => simp [hp]
  | some v =>
    cases v with
    | jobj kvs =>
      cases hk : lookupKey kvs dataKey with
      | none => simp [hp, hk]
      | some w =>
        cases w with
        | jstr s =>
          cases hd : b64decodePy (stripDataUri s) with
          | ok bytes =>
            simp only [hp, hk, hd] at h
            simp at h
          | error e =>
            cases e with
            | notAscii => simp [hp, hk, hd]
            | badData => simp [hp, hk, hd]
        | jnull => simp [hp, hk]
        | jbool b => simp [hp, hk]
        | jnum raw => simp [hp, hk]
        | jarr xs => simp [hp, hk]
        | jobj kvs2 => simp [hp, hk]
    | jnull => simp [hp]
    | jbool b => simp [hp]
    | jnum raw => simp [hp]
    | jstr s => simp [hp]
    | jarr xs => simp [hp]

/-- Witness for `c10_no_write_on_early_failure` on non-JSON input. -/
theorem c10_no_write_on_early_failure_witness :
    (base64_json_to_image "not json".data "b64_json".data).1 = none ∧
      (base64_json_to_image "not json".data "b64_json".data).2.1 = false :=
  c10_no_write_on_early_failure "not json".data "b64_json".data (Or.inl rfl)

/-- C9 counterexample.  First conjunct: the value `"!"` is not valid
Base64, yet `b64decode` (with `validate=False`) discards the non-alphabet
character and decodes the empty rest, so the function writes an empty file
and returns `True` — not `False` as the claim requires.  Second conjunct:
the valid JSON document `5` lacks the requested key, but `data[data_key]`
on a non-dict raises `TypeError`, which only the catch-all `except
Exception` handles: the printed diagnostic is the generic one, not the
missing-key diagnostic the claim requires. -/
theorem c9_counterexample :
    base64_json_to_image "\x7b\"b64_json\": \"!\"\x7d".data "b64_json".data
        = (some [], true, none) ∧
      base64_json_to_image "5".data "b64_json".data = (none, false, some Diag.unknown) ∧
      Diag.unknown ≠ Diag.keyMissing :=
  ⟨rfl, rfl, by decide⟩

/-- C9 amended: the function returns `False` with the malformed-JSON
diagnostic on input that does not parse; with the missing-key diagnostic
when the document is an OBJECT lacking the key; with the invalid-Base64
diagnostic when the (prefix-stripped) string value fails the Base64 data
check; and with the generic catch-all diagnostic when the document is not
an object.  (Values whose non-alphabet characters are discarded down to a
decodable quantum decode successfully and return `True` — see the
counterexample.) -/
theorem c9_failure_routing :
    (∀ input key : Chars, parseJson input = none →
        base64_json_to_image input key = (none, false, some Diag.jsonDecode)) ∧
    (∀ (input key : Chars) (kvs : List (Chars × JValue)),
        parseJson input = some (JValue.jobj kvs) → lookupKey kvs key = none →
        base64_json_to_image input key = (none, false, some Diag.keyMissing)) ∧
    (∀ (input key : Chars) (kvs : List (Chars × JValue)) (s : Chars),
        parseJson input = some (JValue.jobj kvs) →
        lookupKey kvs key = some (JValue.jstr s) →
        b64decodePy (stripDataUri s) = Except.error DecErr.badData →
        base64_json_to_image input key = (none, false, some Diag.b64Invalid)) ∧
    (∀ (input key : Chars) (v : JValue), parseJson input = some v →
        (∀ kvs, v ≠ JValue.jobj kvs) →
        base64_json_to_image input key = (none, false, some Diag.unknown)) := by
  refine ⟨?_, ?_, ?_, ?_⟩
  · intro input key hp
    unfold base64_json_to_image
    rw [hp]
  · intro input key kvs hp hk
    unfold base64_json_to_image
    rw [hp]
    simp only [hk]
  · intro input key kvs s hp hk hd
    unfold base64_json_to_image
    rw [hp]
    simp only [hk, hd]
  · intro input key v hp hv
    unfold base64_json_to_image
    rw [hp]
    cases v with
    | jobj kvs => exact absurd rfl (hv kvs)
    | jnull => rfl
    | jbool b => rfl
    | jnum raw => rfl
    | jstr s => rfl
    | jarr xs => rfl

/-- Witness for `c9_failure_routing`: each routing conjunct applied at a
concrete input. -/
theorem c9_failure_routing_witness :
    base64_json_to_image "not json".data "b64_json".data
        = (none, false, some Diag.jsonDecode) ∧
      base64_json_to_image "\x7b\"other\": 1\x7d".data "b64_json".data
        = (none, false, some Diag.keyMissing) ∧
      base64_json_to_image "\x7b\"b64_json\": \"A\"\x7d".data "b64_json".data
        = (none, false, some Diag.b64Invalid) ∧
      base64_json_to_image "5".data "b64_json".data
        = (none, false, some Diag.unknown) :=
  ⟨c9_failure_routing.1 "not json".data "b64_json".data rfl,
   c9_failure_routing.2.1 "\x7b\"other\": 1\x7d".data "b64_json".data
     [("other".data, JValue.jnum ['1'])] rfl rfl,
   c9_failure_routing.2.2.1 "\x7b\"b64_json\": \"A\"\x7d".data "b64_json".data
     [("b64_json".data, JValue.jstr ['A'])] ['A'] rfl rfl rfl,
   c9_failure_routing.2.2.2 "5".data "b64_json".data (JValue.jnum ['5']) rfl
     (fun _ h => JValue.noConfusion h)⟩

/-!
## Infrastructure for the Script B round trip (C7)
-/

/-- Characters that can appear in a Base64 encoding: alphabet or pad. -/
def isB64Sym (c : Char) : Bool := (idxIn b64Alphabet c).isSome || c = '='

/-- A character a JSON string can hold literally (no escape needed). -/
def plainChar (c : Char) : Bool := c ≠ '"' && c ≠ '\\' && 32 ≤ c.toNat

theorem idxIn_mem : ∀ (l : Chars) (c : Char), (idxIn l c).isSome = true → c ∈ l := by
  intro l
  induction l with
  | nil => intro c h; simp [idxIn] at h
  | cons a as ih =>
    intro c h
    by_cases hac : a = c
    · simp [hac]
    · simp only [idxIn, hac, if_false] at h
      rcases Option.isSome_iff_exists.mp h with ⟨n, hn⟩
      rcases Option.map_eq_some'.mp hn with ⟨m, hm, _⟩
      right
      exact ih c (by simp [hm])

theorem b64_encdec : ∀ n, n < 64 → idxIn b64Alphabet (b64Alphabet.getD n 'A') = some n := by
  decide

theorem b64_enc_ne_pad : ∀ n, n < 64 → b64Alphabet.getD n 'A' ≠ '=' := by
  decide

theorem b64Alphabet_plain : ∀ c ∈ b64Alphabet, plainChar c = true ∧ c.toNat < 128 := by
  decide

theorem isB64Sym_enc (n : Nat) (h : n < 64) : isB64Sym (b64Alphabet.getD n 'A') = true := by
  unfold isB64Sym
  rw [b64_encdec n h]
  rfl

theorem isB64Sym_pad : isB64Sym '=' = true := by decide

/-- Every character emitted by the encoder is an alphabet symbol or pad. -/
theorem b64encode_syms : ∀ (bs : List Nat), (∀ b ∈ bs, b < 256) →
    ∀ c ∈ b64encode bs, isB64Sym c = true := by
  intro bs
  induction bs using b64encode.induct with
  | case1 => intro _ c hc; simp [b64encode] at hc
  | case2 b0 =>
    intro hb c hc
    have h0 : b0 < 256 := hb b0 (by simp)
    simp only [b64encode, List.mem_cons, List.not_mem_nil, or_false] at hc
    rcases hc with h | h | h | h <;> subst h
    · exact isB64Sym_enc _ (by omega)
    · exact isB64Sym_enc _ (by omega)
    · exact isB64Sym_pad
    · exact isB64Sym_pad
  | case3 b0 b1 =>
    intro hb c hc
    have h0 : b0 < 256 := hb b0 (by simp)
    have h1 : b1 < 256 := hb b1 (by simp)
    simp only [b64encode, List.mem_cons, List.not_mem_nil, or_false] at hc
    rcases hc with h | h | h | h <;> subst h
    · exact isB64Sym_enc _ (by omega)
    · exact isB64Sym_enc _ (by omega)
    · exact isB64Sym_enc _ (by omega)
    · exact isB64Sym_pad
  | case4 b0 b1 b2 rest ih =>
    intro hb c hc
    have h0 : b0 < 256 := hb b0 (by simp)
    have h1 : b1 < 256 := hb b1 (by simp)
    have h2 : b2 < 256 := hb b2 (by simp)
    simp only [b64encode, List.mem_cons] at hc
    rcases hc with h | h | h | h | h
    · subst h; exact isB64Sym_enc _ (by omega)
    · subst h; exact isB64Sym_enc _ (by omega)
    · subst h; exact isB64Sym_enc _ (by omega)
    · subst h; exact isB64Sym_enc _ (by omega)
    · exact ih (fun b hbm => hb b (by simp [hbm])) c h

/-- Decoding inverts encoding: CPython's `a2b_base64` applied to the
standard Base64 encoding of any byte list recovers exactly those bytes. -/
theorem b64_roundtrip : ∀ (bs : List Nat), (∀ b ∈ bs, b < 256) →
    b64core (b64encode bs) [] 0 = some bs := by
  intro bs
  induction bs using b64encode.induct with
  | case1 => intro _; rfl
  | case2 b0 =>
    intro hb
    have h0 : b0 < 256 := hb b0 (by simp)
    have hne0 : b64Alphabet.getD (b0 / 4) 'A' ≠ '=' := b64_enc_ne_pad _ (by omega)
    have hne1 : b64Alphabet.getD (b0 % 4 * 16) 'A' ≠ '=' := b64_enc_ne_pad _ (by omega)
    have hidx0 : idxIn b64Alphabet (b64Alphabet.getD (b0 / 4) 'A') = some (b0 / 4) :=
      b64_encdec _ (by omega)
    have hidx1 : idxIn b64Alphabet (b64Alphabet.getD (b0 % 4 * 16) 'A')
        = some (b0 % 4 * 16) := b64_encdec _ (by omega)
    simp only [b64encode, b64core, hne0, hne1, hidx0, hidx1, if_false, if_neg, padBytes,
      List.nil_append, List.cons_append, ite_false, ite_true]
    simp
    omega
  | case3 b0 b1 =>
    intro hb
    have h0 : b0 < 256 := hb b0 (by simp)
    have h1 : b1 < 256 := hb b1 (by simp)
    have hne0 : b64Alphabet.getD (b0 / 4) 'A' ≠ '=' := b64_enc_ne_pad _ (by omega)
    have hne1 : b64Alphabet.getD (b0 % 4 * 16 + b1 / 16) 'A' ≠ '=' :=
      b64_enc_ne_pad _ (by omega)
    have hne2 : b64Alphabet.getD (b1 % 16 * 4) 'A' ≠ '=' := b64_enc_ne_pad _ (by omega)
    have hidx0 : idxIn b64Alphabet (b64Alphabet.getD (b0 / 4) 'A') = some (b0 / 4) :=
      b64_encdec _ (by omega)
    have hidx1 : idxIn b64Alphabet (b64Alphabet.getD (b0 % 4 * 16 + b1 / 16) 'A')
        = some (b0 % 4 * 16 + b1 / 16) := b64_encdec _ (by omega)
    have hidx2 : idxIn b64Alphabet (b64Alphabet.getD (b1 % 16 * 4) 'A')
        = some (b1 % 16 * 4) := b64_encdec _ (by omega)
    simp only [b64encode, b64core, hne0, hne1, hne2, hidx0, hidx1, hidx2, padBytes,
      List.nil_append, List.cons_append, ite_false, ite_true]
    simp
    omega
  | case4 b0 b1 b2 rest ih =>
    intro hb
    have h0 : b0 < 256 := hb b0 (by simp)
    have h1 : b1 < 256 := hb b1 (by simp)
    have h2 : b2 < 256 := hb b2 (by simp)
    have hrest : b64core (b64encode rest) [] 0 = some rest :=
      ih (fun b hbm => hb b (by simp [hbm]))
    have hne0 : b64Alphabet.getD (b0 / 4) 'A' ≠ '=' := b64_enc_ne_pad _ (by omega)
    have hne1 : b64Alphabet.getD (b0 % 4 * 16 + b1 / 16) 'A' ≠ '=' :=
      b64_enc_ne_pad _ (by omega)
    have hne2 : b64Alphabet.getD (b1 % 16 * 4 + b2 / 64) 'A' ≠ '=' :=
      b64_enc_ne_pad _ (by omega)
    have hne3 : b64Alphabet.getD (b2 % 64) 'A' ≠ '=' := b64_enc_ne_pad _ (by omega)
    have hidx0 : idxIn b64Alphabet (b64Alphabet.getD (b0 / 4) 'A') = some (b0 / 4) :=
      b64_encdec _ (by omega)
    have hidx1 : idxIn b64Alphabet (b64Alphabet.getD (b0 % 4 * 16 + b1 / 16) 'A')
        = some (b0 % 4 * 16 + b1 / 16) := b64_encdec _ (by omega)
    have hidx2 : idxIn b64Alphabet (b64Alphabet.getD (b1 % 16 * 4 + b2 / 64) 'A')
        = some (b1 % 16 * 4 + b2 / 64) := b64_encdec _ (by omega)
    have hidx3 : idxIn b64Alphabet (b64Alphabet.getD (b2 % 64) 'A') = some (b2 % 64) :=
      b64_encdec _ (by omega)
    simp only [b64encode, b64core, hne0, hne1, hne2, hne3, hidx0, hidx1, hidx2, hidx3,
      hrest, Option.map_some', List.nil_append, List.cons_append, ite_false, ite_true]
    simp [Option.some.injEq, List.cons.injEq]
    omega

/-- A JSON string made of plain characters parses literally up to its
closing quote. -/
theorem parseStringBody_plain :
    ∀ (enc rest : Chars), (∀ c ∈ enc, plainChar c = true) →
      parseStringBody (enc ++ '"' :: rest) = some (enc, rest) := by
  intro enc
  induction enc with
  | nil =>
    intro rest _
    rw [List.nil_append, parseStringBody.eq_def]
    simp
  | cons c cs ih =>
    intro rest hp
    have hc := hp c (by simp)
    simp only [plainChar, Bool.and_eq_true, decide_eq_true_eq] at hc
    obtain ⟨⟨hq, hbs⟩, hctl⟩ := hc
    have hlt : ¬(c.toNat < 32) := by omega
    rw [List.cons_append, parseStringBody.eq_def]
    simp only [hq, hbs, hlt, if_false]
    rw [ih rest (fun x hx => hp x (by simp [hx]))]
    rfl

/-- Alphabet symbols are plain JSON string characters, are ASCII, and are
not `:`. -/
theorem isB64Sym_facts (c : Char) (h : isB64Sym c = true) :
    plainChar c = true ∧ c.toNat < 128 ∧ c ≠ ':' := by
  have hall : ∀ x ∈ b64Alphabet, plainChar x = true ∧ x.toNat < 128 ∧ x ≠ ':' := by decide
  simp only [isB64Sym, Bool.or_eq_true] at h
  rcases h with h | h
  · exact hall c (idxIn_mem b64Alphabet c h)
  · have hce : c = '=' := by simpa using h
    subst hce
    exact ⟨by decide, by decide, by decide⟩

/-- Parsing a string value after optional leading space. -/
theorem parseF_value_string (f : Nat) (payload rest : Chars)
    (hp : ∀ c ∈ payload, plainChar c = true) :
    parseF (f + 1) PMode.value (' ' :: '"' :: (payload ++ '"' :: rest))
      = some (JValue.jstr payload, rest) := by
  rw [parseF.eq_def]
  simp [skipWs, isJsonWs, parseStringBody_plain payload rest hp]

/-- Parsing the members of a one-member object whose value parse is
given and is followed directly by the closing brace. -/
theorem parseF_members_single (f : Nat) (key rest₀ : Chars) (v : JValue)
    (hkeyplain : ∀ c ∈ key, plainChar c = true)
    (hval : parseF (f + 1) PMode.value rest₀ = some (v, '\x7d' :: [])) :
    parseF (f + 2) PMode.members ('"' :: (key ++ '"' :: ':' :: rest₀))
      = some (JValue.jobj [(key, v)], []) := by
  rw [show f + 2 = (f + 1) + 1 from rfl, parseF.eq_def]
  simp [skipWs, isJsonWs, parseStringBody_plain key (':' :: rest₀) hkeyplain, hval]

/-- The wrapped document `{"b64_json": "<payload>"}` parses to the
one-member object holding the payload string. -/
theorem parseF_wrapDoc (payload : Chars) (hp : ∀ c ∈ payload, plainChar c = true)
    (f : Nat) :
    parseF (f + 3) PMode.value (wrapDoc payload)
      = some (JValue.jobj [("b64_json".data, JValue.jstr payload)], []) := by
  have hval : parseF (f + 1) PMode.value (' ' :: '"' :: (payload ++ '"' :: '\x7d' :: []))
      = some (JValue.jstr payload, '\x7d' :: []) :=
    parseF_value_string f payload ('\x7d' :: []) hp
  have hm : parseF (f + 2) PMode.members
      ('"' :: ("b64_json".data ++ '"' :: ':' :: (' ' :: '"' :: (payload ++ '"' :: '\x7d' :: []))))
      = some (JValue.jobj [("b64_json".data, JValue.jstr payload)], []) :=
    parseF_members_single f "b64_json".data _ (JValue.jstr payload) (by decide) hval
  show parseF ((f + 2) + 1) PMode.value
      ('\x7b' :: '"' :: ("b64_json".data
        ++ '"' :: ':' :: (' ' :: '"' :: (payload ++ '"' :: '\x7d' :: [])))) = _
  rw [parseF.eq_def]
  simp [skipWs, isJsonWs]
  simpa using hm

/-- `json.loads` on the wrapped document. -/
theorem parseJson_wrapDoc (payload : Chars) (hp : ∀ c ∈ payload, plainChar c = true) :
    parseJson (wrapDoc payload)
      = some (JValue.jobj [("b64_json".data, JValue.jstr payload)]) := by
  unfold parseJson
  have hlen : 2 * (wrapDoc payload).length + 2 = (2 * (wrapDoc payload).length - 1) + 3 := by
    have : 14 ≤ (wrapDoc payload).length := by
      simp [wrapDoc, List.length_append]
    omega
  rw [hlen, parseF_wrapDoc payload hp]
  simp [skipWs]

/-- No data-URI prefix ever matches a pure Base64 value: the alphabet has
no `:`. -/
theorem stripDataUri_of_syms (s : Chars) (h : ∀ c ∈ s, isB64Sym c = true) :
    stripDataUri s = s := by
  unfold stripDataUri
  cases hm : matchDataUri s with
  | none => rfl
  | some n =>
    exfalso
    have hpre : dataUriLit.isPrefixOf s = true := by
      by_contra hn
      simp only [matchDataUri, Bool.not_eq_true] at hm hn
      rw [hn] at hm
      simp at hm
    rw [List.isPrefixOf_iff_prefix] at hpre
    have hcolon : ':' ∈ s := hpre.subset (by decide)
    exact absurd (h ':' hcolon) (by decide)

/-- C7: the full Script B round trip.  For every byte string, Base64
encoding it, wrapping the encoding in `{"b64_json": "<data>"}` and running
`base64_json_to_image` with key `b64_json` writes exactly the original
bytes and returns `True` with no diagnostic. -/
theorem c7_roundtrip (bs : List Nat) (hb : ∀ b ∈ bs, b < 256) :
    base64_json_to_image (wrapDoc (b64encode bs)) "b64_json".data
      = (some bs, true, none) := by
  have hsym := b64encode_syms bs hb
  have hplain : ∀ c ∈ b64encode bs, plainChar c = true :=
    fun c hc => (isB64Sym_facts c (hsym c hc)).1
  have hparse := parseJson_wrapDoc (b64encode bs) hplain
  have hlk : lookupKey [("b64_json".data, JValue.jstr (b64encode bs))] "b64_json".data
      = some (JValue.jstr (b64encode bs)) := by
    simp [lookupKey]
  have hstrip : stripDataUri (b64encode bs) = b64encode bs :=
    stripDataUri_of_syms _ hsym
  have hascii : (b64encode bs).all (fun c => c.toNat < 128) = true := by
    rw [List.all_eq_true]
    intro c hc
    simpa using (isB64Sym_facts c (hsym c hc)).2.1
  have hdec : b64decodePy (stripDataUri (b64encode bs)) = Except.ok bs := by
    rw [hstrip]
    unfold b64decodePy
    simp only [hascii, if_true, b64_roundtrip bs hb]
  unfold base64_json_to_image
  rw [hparse]
  simp only [hlk, hdec]

/-- Witness for `c7_roundtrip` at the byte string `[72, 105, 33]`. -/
theorem c7_roundtrip_witness :
    base64_json_to_image (wrapDoc (b64encode [72, 105, 33])) "b64_json".data
      = (some [72, 105, 33], true, none) :=
  c7_roundtrip [72, 105, 33] (by decide)
